import Mathlib

/-!
Verification of the `find` command core of this repository
(`src/cmds/restic/cmd_find.go`): the recursive tree search with its
negative-result cache, and the streaming snapshot-grouped output formatter.

Strings are modelled as lists of characters (`Str`); this coincides with
Go's byte-indexed handling for the ASCII inputs all claims are about.
Machine-external collaborators (the tree store, JSON marshalling, time
parsing) are parameters of the model, mirroring the Go interfaces.
-/

namespace ResticFind

abbrev Str := List Char

/-! Section: Go `path/filepath.Match` (shell glob), as used by `findInTree`.

Translated from Go's `path/filepath/match.go` (`Match`, `scanChunk`,
`matchChunk`, `getEsc`), non-Windows branch, `Separator` = `'/'`.
Go's named `(matched, err)` returns become the three-valued `ChunkRes`
(resp. `Except Unit Bool`): an error models `ErrBadPattern`.
-/

inductive ChunkRes where
  | ok (rest : Str)
  | nomatch
  | err
deriving DecidableEq, Repr

/-- Leading-star stripping of `scanChunk`: `for len(pattern) > 0 && pattern[0] == '*'`. -/
def stripStars : Str → Bool × Str
  | [] => (false, [])
  | c :: r => if c = '*' then (true, (stripStars r).2) else (false, c :: r)

/-- The `Scan` loop of Go's `scanChunk`: length of the chunk taken from the
(star-stripped) pattern. A `\` consumes the following character as well;
`*` ends the chunk unless inside `[...]`. -/
def chunkLen : Bool → Str → Nat
  | _, [] => 0
  | inrange, c :: rest =>
    if c = '\\' then
      match rest with
      | [] => 1
      | _ :: rest2 => 2 + chunkLen inrange rest2
    else if c = '[' then 1 + chunkLen true rest
    else if c = ']' then 1 + chunkLen false rest
    else if c = '*' then (if inrange then 1 + chunkLen inrange rest else 0)
    else 1 + chunkLen inrange rest

/-- Go `scanChunk(pattern) (star, chunk, rest)`. -/
def scanChunk (p : Str) : Bool × Str × Str :=
  let (star, q) := stripStars p
  let n := chunkLen false q
  (star, q.take n, q.drop n)

/-- Go `getEsc(chunk) (r, nchunk, err)`; `none` models `ErrBadPattern`.
A class element may not be `-` or `]`, may be escaped with `\`, and may
not be the final character of the chunk (the closing `]` must follow). -/
def getEsc : Str → Option (Char × Str)
  | [] => none
  | c :: r =>
    if c = '-' ∨ c = ']' then none
    else if c = '\\' then
      match r with
      | [] => none
      | c2 :: r2 => if r2 = [] then none else some (c2, r2)
    else if r = [] then none else some (c, r)

/-- The range-parsing loop of `matchChunk`'s `[` case: parses
`lo`(-`hi`) elements until the closing `]` (legal only after at least one
range), accumulating whether the examined character `a` fell in any range.
Each iteration consumes at least one character of `chunk` via `getEsc`, so
fuel `chunk.length + 1` (supplied at the call site) never runs out. -/
def matchRanges (a : Char) : Nat → Str → Bool → Nat → Option (Str × Bool)
  | 0, _, _, _ => none
  | fuel+1, chunk, m, nrange =>
    if chunk.head? = some ']' ∧ nrange > 0 then some (chunk.tail, m)
    else
      match getEsc chunk with
      | none => none
      | some (lo, c1) =>
        match (if c1.head? = some '-' then getEsc c1.tail else some (lo, c1)) with
        | none => none
        | some (hi, c2) =>
          matchRanges a fuel c2 (m || (decide (lo ≤ a) && decide (a ≤ hi))) (nrange + 1)

/-- Go `matchChunk(chunk, s) (rest, ok, err)`. Each recursive call consumes
exactly one character of `s`, so recursion is structural in `s`. -/
def matchChunk : Str → Str → ChunkRes
  | [], s => .ok s
  | _ :: _, [] => .nomatch
  | c :: cr, a :: sr =>
    if c = '[' then
      match cr with
      | [] => .err
      | c2 :: cr2 =>
        let (neg, chunk1) := if c2 = '^' then (true, cr2) else (false, c2 :: cr2)
        match matchRanges a (chunk1.length + 1) chunk1 false 0 with
        | none => .err
        | some (chunk2, m) => if m = neg then .nomatch else matchChunk chunk2 sr
    else if c = '?' then
      if a = '/' then .nomatch else matchChunk cr sr
    else if c = '\\' then
      match cr with
      | [] => .err
      | c2 :: cr2 => if c2 = a then matchChunk cr2 sr else .nomatch
    else
      if c = a then matchChunk cr sr else .nomatch

/-- The `star` inner loop of Go `Match`: try `matchChunk` at every later
position of `name`, not skipping past a `/`. `some t` transfers control
back to the outer loop (`continue Pattern` with remaining name `t`);
`none` means the loop exhausted `name` without a usable match. -/
def starLoop (chunk rest : Str) : Str → Except Unit (Option Str)
  | [] => .ok none
  | c :: s =>
    if c = '/' then .ok none
    else
      match matchChunk chunk s with
      | .ok t => if rest = [] ∧ t ≠ [] then starLoop chunk rest s else .ok (some t)
      | .nomatch => starLoop chunk rest s
      | .err => .error ()

/-- The `Pattern` outer loop of Go `Match`. Each iteration strictly shortens
the pattern (`scanChunk` consumes at least one character of a non-empty
pattern), so fuel `p.length` (supplied by `filepathMatch`) never runs out. -/
def matchGo : Nat → Str → Str → Except Unit Bool
  | 0, p, n => if p = [] then .ok (decide (n = [])) else .error ()
  | fuel+1, p, n =>
    if p = [] then .ok (decide (n = []))
    else
      let (star, chunk, rest) := scanChunk p
      if star ∧ chunk = [] then .ok (!n.contains '/')
      else
        match matchChunk chunk n with
        | .ok t =>
          if t = [] ∨ rest ≠ [] then matchGo fuel rest t
          else if star then
            match starLoop chunk rest n with
            | .ok (some t2) => matchGo fuel rest t2
            | .ok none => .ok false
            | .error e => .error e
          else .ok false
        | .err => .error ()
        | .nomatch =>
          if star then
            match starLoop chunk rest n with
            | .ok (some t2) => matchGo fuel rest t2
            | .ok none => .ok false
            | .error e => .error e
          else .ok false

/-- Go `filepath.Match(pattern, name)`. -/
def filepathMatch (p n : Str) : Except Unit Bool := matchGo p.length p n

/-! Section: data model (`cmd_find.go` plus the collaborator interfaces it uses). -/

/-- An identifier (`restic.ID`) of a tree: an opaque content-derived identifier. -/
abbrev TreeID := Nat

/-- The fields of `restic.Node` this command reads: `Name`, `Type`,
`ModTime`, `Mode` and (for `Type == "dir"`) `Subtree`. Times are modelled
as integers, with `0` playing the role of Go's zero `time.Time`
(`IsZero`, `Before` = `<`, `After` = `>`). -/
structure Node where
  name : Str
  nodeType : Str
  modTime : Int
  mode : Nat
  subtree : TreeID
deriving DecidableEq, Repr

abbrev Tree := List Node

/-- A `*restic.Snapshot` as consumed here: `uid` models the pointer
identity of the loaded snapshot object (the source compares `newsn` and
`oldsn` by pointer; each snapshot yielded by the snapshot source is a
distinct object), `sid` is `ID()`, `tree` is `*sn.Tree`. -/
structure Snapshot where
  uid : Nat
  sid : Str
  tree : TreeID
deriving DecidableEq, Repr

/-- Go `findPattern`. -/
structure FindPattern where
  oldest : Int
  newest : Int
  pattern : Str
  ignoreCase : Bool
deriving DecidableEq, Repr

/-- The errors `runFind` and its callees can return. `outOfFuel` marks an
exhausted recursion-depth budget of the model; every theorem either uses a
sufficient budget or treats it as any other abort. -/
inductive FindErr where
  | argCount
  | timeParse
  | badPattern
  | loadErr (id : TreeID)
  | outOfFuel
deriving DecidableEq, Repr

/-- One emitted output fragment, one constructor per `Printf`/`Verbosef`/
`Warnf` call site of the output sink. `record`/`line` additionally carry
the full path rendered into the fragment, to let theorems speak about it.
`warn`, `sep` and `header` go to the diagnostic/verbose stream; everything
else goes to the result stream. -/
inductive Tok where
  | openBracket
  | closeGroup (hits : Nat) (sid : Str)
  | openGroup
  | comma
  | record (path : Str) (body : Str)
  | closeGroupFinal (hits : Nat) (sid : Str)
  | closeBracket
  | emptyArray
  | sep
  | header (sid : Str)
  | line (path : Str) (long : Bool)
  | warn
deriving DecidableEq, Repr

/-- Go `statefulOutput`. -/
structure StatefulOutput where
  listLong : Bool
  json : Bool
  inuse : Bool
  newsn : Option Snapshot
  oldsn : Option Snapshot
  hits : Nat
deriving DecidableEq, Repr

/-- The observable state threaded through a `runFind` invocation: the
`Finder`'s `notfound` cache and output sink, plus three traces the Go code
produces through its side effects — the emitted output fragments
(`toks`, in order), the sequence of `repo.LoadTree` calls (`loads`), and
the accepted matches (`recs`: one entry per execution of the
`found = true; f.out.Print(...)` statement, recording `(prefix, node)`). -/
structure FindState where
  notfound : List TreeID
  out : StatefulOutput
  toks : List Tok
  loads : List TreeID
  recs : List (Str × Node)
deriving DecidableEq, Repr

/-- Go `filepath.Join(p, n)` for the paths this command builds: `p` is `"/"`
or a previously joined path, `n` is an entry name (no separator, non-empty,
not a dot segment — the tree invariant of the store), so `Clean` is the
identity and `Join` is separator concatenation. -/
def goJoin (p n : Str) : Str := if p = ['/'] then '/' :: n else p ++ '/' :: n

/-- Go pointer inequality `s.newsn != s.oldsn`, via the object identity
`uid` (`none` is the nil pointer). -/
def ptrNe (a b : Option Snapshot) : Bool := !(a.map (·.uid) == b.map (·.uid))

/-- Go `(*statefulOutput).PrintJSON`. `marshal` stands for `json.Marshal`
applied to the anonymous struct built from the joined path and the node
(`none` models a marshalling error). -/
def printJSON (marshal : Str → Node → Option Str) (st : FindState) (pfx : Str)
    (node : Node) : FindState :=
  let path := goJoin pfx node.name
  match marshal path node with
  | none => { st with toks := st.toks ++ [.warn] }
  | some b =>
    let s0 := st.out
    let s1 := if s0.inuse = false then { s0 with inuse := true } else s0
    let t1 : List Tok := if s0.inuse = false then [.openBracket] else []
    let s2 :=
      if ptrNe s1.newsn s1.oldsn then { s1 with oldsn := s1.newsn, hits := 0 }
      else s1
    let t2 : List Tok :=
      if ptrNe s1.newsn s1.oldsn then
        (match s1.oldsn with
         | some old => [.closeGroup s1.hits old.sid]
         | none => []) ++ [Tok.openGroup]
      else []
    let t3 : List Tok := if s2.hits > 0 then [.comma] else []
    { st with out := { s2 with hits := s2.hits + 1 },
              toks := st.toks ++ t1 ++ t2 ++ t3 ++ [.record path b] }

/-- Go `(*statefulOutput).PrintNormal`. The rendered line is `formatNode`'s
output; `formatNode` lives outside this source file. Modelled from the
spec: each record is printed as one line containing the path (prefix
joined with the entry name) and, under the long flag, further metadata;
the `line` token carries exactly that. -/
def printNormal (st : FindState) (pfx : Str) (node : Node) : FindState :=
  let s0 := st.out
  let s1 := if ptrNe s0.newsn s0.oldsn then { s0 with oldsn := s0.newsn } else s0
  let t1 : List Tok :=
    if ptrNe s0.newsn s0.oldsn then
      (if s0.oldsn.isSome then [.sep] else []) ++
      [.header ((s0.newsn.map (·.sid)).getD [])]
    else []
  { st with out := s1, toks := st.toks ++ t1 ++ [.line (goJoin pfx node.name) s1.listLong] }

/-- Go `(*statefulOutput).Print`. -/
def printMatch (marshal : Str → Node → Option Str) (st : FindState) (pfx : Str)
    (node : Node) : FindState :=
  if st.out.json then printJSON marshal st pfx node else printNormal st pfx node

/-- Go `(*statefulOutput).Finish`, as the list of fragments it emits. -/
def finishToks (s : StatefulOutput) : List Tok :=
  if s.json then
    (match s.oldsn with
     | some old => [Tok.closeGroupFinal s.hits old.sid]
     | none => []) ++
    (if s.inuse then [Tok.closeBracket] else [Tok.emptyArray])
  else []

/-! Section: search engine (`Finder.findInTree`, `Finder.findInSnapshot`, `runFind`). -/

/-- The entry name `"dir"` compared against `node.Type`. -/
def dirT : Str := ("dir").toList

/-- The `for _, node := range tree.Nodes` loop body of `findInTree`.
`recur` is the recursive `findInTree` call (one fuel level down),
`found` the loop-carried flag. Note, exactly as in the source:
a name match whose `ModTime` falls outside an active bound executes
`continue`, which also skips the directory recursion; and `found` is set
only by entries of this very tree, never by recursion results. -/
def findNodes (marshal : Str → Node → Option Str)
    (recur : TreeID → Str → FindState → FindState × Option FindErr)
    (pat : FindPattern) (pfx : Str) :
    List Node → Bool → FindState → Bool × FindState × Option FindErr
  | [], found, st => (found, st, none)
  | node :: rest, found, st =>
    let name := if pat.ignoreCase then node.name.map Char.toLower else node.name
    match filepathMatch pat.pattern name with
    | .error _ => (found, st, some .badPattern)
    | .ok m =>
      if m = true ∧ pat.oldest ≠ 0 ∧ node.modTime < pat.oldest then
        findNodes marshal recur pat pfx rest found st
      else if m = true ∧ pat.newest ≠ 0 ∧ node.modTime > pat.newest then
        findNodes marshal recur pat pfx rest found st
      else
        let (found1, st1) :=
          if m = true then
            (true, printMatch marshal { st with recs := st.recs ++ [(pfx, node)] } pfx node)
          else (found, st)
        if node.nodeType = dirT then
          match recur node.subtree (goJoin pfx node.name) st1 with
          | (st2, some e) => (found1, st2, some e)
          | (st2, none) => findNodes marshal recur pat pfx rest found1 st2
        else
          findNodes marshal recur pat pfx rest found1 st1

/-- Go `(*Finder).findInTree`: `repo` is `repo.LoadTree` (`none` = load
error); the fuel bounds recursion depth (trees in the store form a DAG,
so any fuel at least the DAG depth is enough and is never exhausted). -/
def findInTree (repo : TreeID → Option Tree) (marshal : Str → Node → Option Str) :
    Nat → FindPattern → TreeID → Str → FindState → FindState × Option FindErr
  | 0, _, _, _, st => (st, some .outOfFuel)
  | fuel+1, pat, treeID, pfx, st =>
    if st.notfound.contains treeID then (st, none)
    else
      let st0 := { st with loads := st.loads ++ [treeID] }
      match repo treeID with
      | none => (st0, some (.loadErr treeID))
      | some tree =>
        match findNodes marshal (findInTree repo marshal fuel pat) pat pfx tree false st0 with
        | (_, st1, some e) => (st1, some e)
        | (found, st1, none) =>
          if found = false then ({ st1 with notfound := treeID :: st1.notfound }, none)
          else (st1, none)

/-- Go `(*Finder).findInSnapshot`. -/
def findInSnapshot (repo : TreeID → Option Tree) (marshal : Str → Node → Option Str)
    (fuel : Nat) (pat : FindPattern) (sn : Snapshot) (st : FindState) :
    FindState × Option FindErr :=
  findInTree repo marshal fuel pat sn.tree ['/']
    { st with out := { st.out with newsn := some sn } }

/-- The option fields of `FindOptions`/`GlobalOptions` that reach this
core: `Oldest`, `Newest`, `CaseInsensitive`, `ListLong` and the global
JSON switch. -/
structure FindOpts where
  oldest : Str
  newest : Str
  caseInsensitive : Bool
  listLong : Bool
  json : Bool
deriving DecidableEq, Repr

/-- The `findPattern` built at the top of `runFind` (before the time
bounds are parsed): the pattern is lowered once iff `CaseInsensitive`. -/
def basePattern (p0 : Str) (ci : Bool) : FindPattern :=
  if ci then
    { oldest := 0, newest := 0, pattern := p0.map Char.toLower, ignoreCase := true }
  else
    { oldest := 0, newest := 0, pattern := p0, ignoreCase := false }

/-- The fresh `Finder` state built in `runFind`. -/
def initFindState (opts : FindOpts) : FindState :=
  { notfound := [],
    out := { listLong := opts.listLong, json := opts.json, inuse := false,
             newsn := none, oldsn := none, hits := 0 },
    toks := [], loads := [], recs := [] }

/-- The `for sn := range FindFilteredSnapshots(...)` loop of `runFind`:
each snapshot is searched in full before the next; the first error aborts. -/
def runFindLoop (repo : TreeID → Option Tree) (marshal : Str → Node → Option Str)
    (fuel : Nat) (pat : FindPattern) :
    List Snapshot → FindState → FindState × Option FindErr
  | [], st => (st, none)
  | sn :: rest, st =>
    match findInSnapshot repo marshal fuel pat sn st with
    | (st1, some e) => (st1, some e)
    | (st1, none) => runFindLoop repo marshal fuel pat rest st1

/-- The part of `runFind` up to (not including) `f.out.Finish()`: argument check,
pattern construction, time-bound parsing (`parseT` models `parseTime`;
an unset flag string skips the parse), then the snapshot loop.
Repository opening, locking and index loading are external collaborators
with no observable effect on this core and are not modelled. -/
def runFindCore (repo : TreeID → Option Tree) (marshal : Str → Node → Option Str)
    (parseT : Str → Option Int) (opts : FindOpts) (args : List Str)
    (snaps : List Snapshot) (fuel : Nat) : FindState × Option FindErr :=
  if args.length ≠ 1 then (initFindState opts, some .argCount)
  else
    let pat0 := basePattern (args.headD []) opts.caseInsensitive
    match (if opts.oldest = [] then some 0 else parseT opts.oldest) with
    | none => (initFindState opts, some .timeParse)
    | some o =>
      match (if opts.newest = [] then some 0 else parseT opts.newest) with
      | none => (initFindState opts, some .timeParse)
      | some nw =>
        runFindLoop repo marshal fuel { pat0 with oldest := o, newest := nw }
          snaps (initFindState opts)

/-- Go `runFind`: on success the sink is asked to finish; an error returns
immediately, without `Finish()` (mirroring the early `return err`). -/
def runFind (repo : TreeID → Option Tree) (marshal : Str → Node → Option Str)
    (parseT : Str → Option Int) (opts : FindOpts) (args : List Str)
    (snaps : List Snapshot) (fuel : Nat) : FindState × Option FindErr :=
  match runFindCore repo marshal parseT opts args snaps fuel with
  | (st, some e) => (st, some e)
  | (st, none) => ({ st with toks := st.toks ++ finishToks st.out }, none)

/-! Section: specification predicates. -/

/-- Does this fragment go to the result stream (`Printf`) rather than the
verbose/diagnostic stream (`Verbosef`/`Warnf`)? -/
def isResultTok : Tok → Bool
  | .sep => false
  | .header _ => false
  | .warn => false
  | _ => true

/-- Is this fragment a rendered match record? -/
def isRec : Tok → Bool
  | .record _ _ => true
  | _ => false

/-- Some rendered match record occurs among the fragments. -/
def hasRec (ts : List Tok) : Bool := ts.any isRec

/-- Fragments that render a path render an absolute one. -/
def pathTokOk : Tok → Prop
  | .record p _ => p.head? = some '/'
  | .line p _ => p.head? = some '/'
  | _ => True

/-- The output sink's structured-mode state-machine invariant: the outer
array has been opened iff a record has been rendered, and the
previous-snapshot pointer is set iff the array is open. -/
def InvJ (st : FindState) : Prop :=
  st.out.json = true →
    (st.out.inuse = true ↔ hasRec st.toks = true) ∧
    (st.out.inuse = false → st.out.oldsn = none) ∧
    (st.out.inuse = true → st.out.oldsn.isSome = true)

/-- How one `findInTree` call (or any piece of it) relates its input state
to its output state (all call sites pass a `/`-headed prefix): the three
traces only grow; the sink's configuration and current snapshot are
untouched; if no match was accepted, nothing was printed and the sink is
untouched; the structured-document invariant is preserved (given the
current snapshot is non-nil, as it is throughout a search); and every
added fragment renders an absolute path if it renders one at all. -/
def Steps (st st2 : FindState) : Prop :=
  st.toks <+: st2.toks ∧
  st.loads <+: st2.loads ∧
  st.recs <+: st2.recs ∧
  st2.out.json = st.out.json ∧
  st2.out.listLong = st.out.listLong ∧
  st2.out.newsn = st.out.newsn ∧
  (st2.recs = st.recs → st2.toks = st.toks ∧ st2.out = st.out) ∧
  (st.out.newsn.isSome = true → InvJ st → InvJ st2) ∧
  (∀ t ∈ st2.toks, t ∈ st.toks ∨ pathTokOk t)

/-! Section: fixtures for the concrete runs the claims are settled on. -/

def fileT : Str := ("file").toList

def mkFile (nm : Str) (mt : Int) : Node :=
  { name := nm, nodeType := fileT, modTime := mt, mode := 0, subtree := 0 }

def mkDir (nm : Str) (mt : Int) (sub : TreeID) : Node :=
  { name := nm, nodeType := dirT, modTime := mt, mode := 0, subtree := sub }

def bTxt : Node := mkFile (("b.txt").toList) 10

/-- Tree 1 = `{sub -> tree 2}`, tree 2 = `{b.txt}`: the only match under
tree 1 lives in its subtree. -/
def subRepo : TreeID → Option Tree
  | 1 => some [mkDir (("sub").toList) 0 2]
  | 2 => some [bTxt]
  | _ => none

/-- Tree 1 = `{build(dir, modTime 5) -> tree 2}`, tree 2 = `{build(file,
modTime 20)}`. -/
def buildRepo : TreeID → Option Tree
  | 1 => some [mkDir (("build").toList) 5 2]
  | 2 => some [mkFile (("build").toList) 20]
  | _ => none

/-- Tree 1 = `{notes.txt}`. -/
def notesRepo : TreeID → Option Tree
  | 1 => some [mkFile (("notes.txt").toList) 0]
  | _ => none

/-- Tree 1 = `{d(dir) -> missing tree 2, e(file)}`: the subtree load fails. -/
def abortRepo : TreeID → Option Tree
  | 1 => some [mkDir (("d").toList) 0 2, mkFile (("e").toList) 0]
  | _ => none

/-- Tree 1 = `{a.txt, c.txt}`. -/
def twoFileRepo : TreeID → Option Tree
  | 1 => some [mkFile (("a.txt").toList) 1, mkFile (("c.txt").toList) 2]
  | _ => none

/-- A repository holding a single one-entry tree. -/
def oneFileRepo (node : Node) : TreeID → Option Tree :=
  fun t => if t = 1 then some [node] else none

/-- A `json.Marshal` stand-in that always succeeds (rendering the path). -/
def idMarshal : Str → Node → Option Str := fun p _ => some p

/-- A `json.Marshal` stand-in that fails exactly on the path `/a.txt`. -/
def failATxtMarshal : Str → Node → Option Str :=
  fun p _ => if p = ("/a.txt").toList then none else some p

/-- A `parseTime` stand-in for runs whose time flags are unset. -/
def noParse : Str → Option Int := fun _ => none

/-- A `parseTime` stand-in that parses every string to time `10`. -/
def parse10 : Str → Option Int := fun _ => some 10

def snapA : Snapshot := { uid := 1, sid := ("s1").toList, tree := 1 }

def snapB : Snapshot := { uid := 2, sid := ("s2").toList, tree := 1 }

/-- Defaults: no time bounds, case-sensitive, short listing, text mode. -/
def plainOpts : FindOpts :=
  { oldest := [], newest := [], caseInsensitive := false, listLong := false,
    json := false }

def jsonOpts : FindOpts := { plainOpts with json := true }

def ciOpts : FindOpts := { plainOpts with caseInsensitive := true }

/-- The options `plainOpts` with the oldest-bound flag present (its text is parsed by
the `parseT` argument of the run). -/
def oldestOpts : FindOpts := { plainOpts with oldest := ("x").toList }

/-! Section: theorems. -/

theorem goJoin_head (p n : Str) (hp : p.head? = some '/') :
    (goJoin p n).head? = some '/' := by
  unfold goJoin
  split
  · rfl
  · cases p with
    | nil => simp at hp
    | cons c r => simpa using hp

theorem steps_refl (st : FindState) : Steps st st :=
  ⟨List.prefix_refl _, List.prefix_refl _, List.prefix_refl _, rfl, rfl, rfl,
   fun _ => ⟨rfl, rfl⟩, fun _ h => h, fun _ ht => Or.inl ht⟩

theorem steps_trans {st1 st2 st3 : FindState} (h12 : Steps st1 st2)
    (h23 : Steps st2 st3) : Steps st1 st3 := by
  obtain ⟨a1, b1, c1, d1, e1, f1, g1, i1, j1⟩ := h12
  obtain ⟨a2, b2, c2, d2, e2, f2, g2, i2, j2⟩ := h23
  refine ⟨a1.trans a2, b1.trans b2, c1.trans c2, d2.trans d1, e2.trans e1,
    f2.trans f1, ?_, ?_, ?_⟩
  · intro hrec
    have hlen : st1.recs.length = st2.recs.length := by
      have l1 := c1.length_le
      have l2 := c2.length_le
      rw [hrec] at l2
      omega
    have h21 : st1.recs = st2.recs := c1.eq_of_length hlen
    have g2h := g2 (by rw [hrec, h21])
    have g1h := g1 h21.symm
    exact ⟨g2h.1.trans g1h.1, g2h.2.trans g1h.2⟩
  · intro hsome hinv
    exact i2 (f1 ▸ hsome) (i1 hsome hinv)
  · intro t ht
    rcases j2 t ht with h | h
    · exact j1 t h
    · exact Or.inr h

theorem ptrNe_false_isSome {a b : Option Snapshot} (h : ptrNe a b = false) :
    a.isSome = b.isSome := by
  unfold ptrNe at h
  simp only [Bool.not_eq_false', beq_iff_eq] at h
  have h2 := congrArg Option.isSome h
  simpa using h2

theorem printJSON_proj (marshal : Str → Node → Option Str) (st : FindState)
    (pfx : Str) (node : Node) :
    (printJSON marshal st pfx node).notfound = st.notfound ∧
    (printJSON marshal st pfx node).loads = st.loads ∧
    (printJSON marshal st pfx node).recs = st.recs ∧
    (printJSON marshal st pfx node).out.json = st.out.json ∧
    (printJSON marshal st pfx node).out.listLong = st.out.listLong ∧
    (printJSON marshal st pfx node).out.newsn = st.out.newsn := by
  refine ⟨?_, ?_, ?_, ?_, ?_, ?_⟩ <;>
    (unfold printJSON
     cases hm : marshal (goJoin pfx node.name) node <;> simp only [hm] <;>
       (repeat' split) <;> rfl)

theorem mem_ite_list {c : Prop} [Decidable c] {l1 l2 : List Tok} {t : Tok}
    (h : t ∈ (if c then l1 else l2)) : t ∈ l1 ∨ t ∈ l2 := by
  split at h
  · exact Or.inl h
  · exact Or.inr h

theorem mem_closeGroup_match {o : Option Snapshot} {hits : Nat} {t : Tok}
    (h : t ∈ (match o with
              | some old => [Tok.closeGroup hits old.sid]
              | none => ([] : List Tok))) : ∃ s, t = Tok.closeGroup hits s := by
  cases o <;> simp_all

theorem printJSON_toks_grow (marshal : Str → Node → Option Str) (st : FindState)
    (pfx : Str) (node : Node) :
    st.toks <+: (printJSON marshal st pfx node).toks := by
  unfold printJSON
  cases hm : marshal (goJoin pfx node.name) node <;> simp only [hm]
  · exact List.prefix_append _ _
  · rw [List.append_assoc, List.append_assoc, List.append_assoc]
    exact List.prefix_append _ _

theorem printJSON_toks_path (marshal : Str → Node → Option Str) (st : FindState)
    (pfx : Str) (node : Node) (hp : pfx.head? = some '/') :
    ∀ t ∈ (printJSON marshal st pfx node).toks, t ∈ st.toks ∨ pathTokOk t := by
  have hpath : (goJoin pfx node.name).head? = some '/' := goJoin_head _ _ hp
  unfold printJSON
  cases hm : marshal (goJoin pfx node.name) node <;> simp only [hm] <;> intro t ht
  · rcases List.mem_append.1 ht with h1 | h1
    · exact Or.inl h1
    · simp only [List.mem_singleton] at h1
      subst h1
      exact Or.inr trivial
  · rw [List.append_assoc, List.append_assoc, List.append_assoc] at ht
    rcases List.mem_append.1 ht with h1 | h1
    · exact Or.inl h1
    right
    rcases List.mem_append.1 h1 with h2 | h2
    · rcases mem_ite_list h2 with h3 | h3 <;> simp_all [pathTokOk]
    rcases List.mem_append.1 h2 with h3 | h3
    · rcases mem_ite_list h3 with h4 | h4
      · rcases List.mem_append.1 h4 with h5 | h5
        · obtain ⟨s, rfl⟩ := mem_closeGroup_match h5
          trivial
        · simp_all [pathTokOk]
      · simp_all
    rcases List.mem_append.1 h3 with h4 | h4
    · rcases mem_ite_list h4 with h5 | h5 <;> simp_all [pathTokOk]
    · simp_all [pathTokOk]

theorem printJSON_hasRec (marshal : Str → Node → Option Str) (st : FindState)
    (pfx : Str) (node : Node) (b : Str)
    (hm : marshal (goJoin pfx node.name) node = some b) :
    hasRec (printJSON marshal st pfx node).toks = true := by
  unfold printJSON
  simp [hm, hasRec, isRec]

theorem printJSON_toks_none (marshal : Str → Node → Option Str) (st : FindState)
    (pfx : Str) (node : Node)
    (hm : marshal (goJoin pfx node.name) node = none) :
    (printJSON marshal st pfx node).toks = st.toks ++ [.warn] := by
  unfold printJSON
  simp [hm]

theorem printJSON_out (marshal : Str → Node → Option Str) (st : FindState)
    (pfx : Str) (node : Node) (b : Str)
    (hm : marshal (goJoin pfx node.name) node = some b) :
    (printJSON marshal st pfx node).out.inuse = true ∧
    (printJSON marshal st pfx node).out.oldsn =
      (if ptrNe st.out.newsn st.out.oldsn then st.out.newsn else st.out.oldsn) := by
  unfold printJSON
  simp only [hm]
  constructor
  · split <;> split <;> simp_all
  · split <;> split <;> simp_all

theorem printJSON_out_none (marshal : Str → Node → Option Str) (st : FindState)
    (pfx : Str) (node : Node)
    (hm : marshal (goJoin pfx node.name) node = none) :
    (printJSON marshal st pfx node).out = st.out := by
  unfold printJSON
  simp only [hm]

/-- C1: the claim fails on the code, which is the bug: `found` in
`findInTree` is set only by entries of the tree itself, never by matches
found in recursive calls. Searching one snapshot rooted at tree 1, whose
only match `/sub/b.txt` lies in subtree 2, emits that match — yet tree 1
is inserted into the negative cache (`notfound = [1]`), violating the
cache invariant the claim states. -/

theorem printNormal_proj (st : FindState) (pfx : Str) (node : Node) :
    (printNormal st pfx node).notfound = st.notfound ∧
    (printNormal st pfx node).loads = st.loads ∧
    (printNormal st pfx node).recs = st.recs ∧
    (printNormal st pfx node).out.json = st.out.json ∧
    (printNormal st pfx node).out.listLong = st.out.listLong ∧
    (printNormal st pfx node).out.newsn = st.out.newsn := by
  refine ⟨rfl, rfl, rfl, ?_, ?_, ?_⟩ <;> (simp only [printNormal]; split <;> rfl)

theorem printNormal_toks_grow (st : FindState) (pfx : Str) (node : Node) :
    st.toks <+: (printNormal st pfx node).toks := by
  simp only [printNormal]
  rw [List.append_assoc]
  exact List.prefix_append _ _

theorem printNormal_toks_path (st : FindState) (pfx : Str) (node : Node)
    (hp : pfx.head? = some '/') :
    ∀ t ∈ (printNormal st pfx node).toks, t ∈ st.toks ∨ pathTokOk t := by
  have hpath : (goJoin pfx node.name).head? = some '/' := goJoin_head _ _ hp
  simp only [printNormal]
  intro t ht
  rw [List.append_assoc] at ht
  rcases List.mem_append.1 ht with h1 | h1
  · exact Or.inl h1
  right
  rcases List.mem_append.1 h1 with h2 | h2
  · rcases mem_ite_list h2 with h3 | h3
    · rcases List.mem_append.1 h3 with h4 | h4
      · rcases mem_ite_list h4 with h5 | h5 <;> simp_all [pathTokOk]
      · simp_all [pathTokOk]
    · simp_all
  · simp_all [pathTokOk]

theorem printMatch_steps (marshal : Str → Node → Option Str) (st : FindState)
    (pfx : Str) (node : Node) (hp : pfx.head? = some '/') :
    Steps st (printMatch marshal { st with recs := st.recs ++ [(pfx, node)] } pfx node) := by
  have hne : st.recs ++ [(pfx, node)] ≠ st.recs := by
    intro h
    have := congrArg List.length h
    simp at this
  unfold printMatch
  by_cases hjs : st.out.json = true
  · -- structured mode: printJSON
    simp only [hjs, eq_self_iff_true, if_true]
    obtain ⟨p1, p2, p3, p4, p5, p6⟩ :=
      printJSON_proj marshal { st with recs := st.recs ++ [(pfx, node)] } pfx node
    refine ⟨printJSON_toks_grow marshal { st with recs := st.recs ++ [(pfx, node)] } pfx node,
      by rw [p2], ?_, p4, p5, p6, ?_, ?_, ?_⟩
    · rw [p3]
      exact List.prefix_append _ _
    · intro h
      rw [p3] at h
      exact absurd h hne
    · intro hsome hinv
      intro hjs2
      cases hm : marshal (goJoin pfx node.name) node with
      | none =>
        have hout := printJSON_out_none marshal
          { st with recs := st.recs ++ [(pfx, node)] } pfx node hm
        have htoks := printJSON_toks_none marshal
          { st with recs := st.recs ++ [(pfx, node)] } pfx node hm
        obtain ⟨h1, h2, h3⟩ := hinv hjs
        rw [hout, htoks]
        exact ⟨by simpa [hasRec, isRec] using h1, h2, h3⟩
      | some b =>
        have hout := printJSON_out marshal
          { st with recs := st.recs ++ [(pfx, node)] } pfx node b hm
        have hrec := printJSON_hasRec marshal
          { st with recs := st.recs ++ [(pfx, node)] } pfx node b hm
        refine ⟨by rw [hout.1, hrec], by rw [hout.1]; simp, ?_⟩
        intro _
        rw [hout.2]
        by_cases hptr : ptrNe st.out.newsn st.out.oldsn = true
        · rw [if_pos hptr]
          exact hsome
        · rw [if_neg hptr]
          rw [← ptrNe_false_isSome (Bool.not_eq_true _ ▸ hptr)]
          exact hsome
    · exact printJSON_toks_path _ _ _ _ hp
  · -- text mode: printNormal
    rw [Bool.not_eq_true] at hjs
    simp only [hjs, Bool.false_eq_true, if_false]
    obtain ⟨p1, p2, p3, p4, p5, p6⟩ :=
      printNormal_proj { st with recs := st.recs ++ [(pfx, node)] } pfx node
    refine ⟨printNormal_toks_grow { st with recs := st.recs ++ [(pfx, node)] } pfx node,
      by rw [p2], ?_, p4, p5, p6, ?_, ?_, ?_⟩
    · rw [p3]
      exact List.prefix_append _ _
    · intro h
      rw [p3] at h
      exact absurd h hne
    · intro _ _ hjs2
      rw [p4] at hjs2
      simp only [hjs] at hjs2
      cases hjs2
    · exact printNormal_toks_path _ _ _ hp

theorem findNodes_steps (marshal : Str → Node → Option Str)
    (recur : TreeID → Str → FindState → FindState × Option FindErr)
    (pat : FindPattern)
    (hrec : ∀ tid pfx2 st2, pfx2.head? = some '/' → Steps st2 (recur tid pfx2 st2).1)
    (nodes : List Node) :
    ∀ (pfx : Str) (found : Bool) (st : FindState), pfx.head? = some '/' →
      Steps st (findNodes marshal recur pat pfx nodes found st).2.1 := by
  induction nodes with
  | nil =>
    intro pfx found st hp
    exact steps_refl st
  | cons node rest ih =>
    intro pfx found st hp
    have hjoin : (goJoin pfx node.name).head? = some '/' := goJoin_head pfx node.name hp
    simp only [findNodes]
    cases hfm : filepathMatch pat.pattern
        (if pat.ignoreCase then node.name.map Char.toLower else node.name) with
    | error e =>
      simp only [hfm]
      exact steps_refl st
    | ok m =>
      simp only [hfm]
      cases m with
      | false =>
        simp only [Bool.false_eq_true, false_and, if_false]
        split
        · split
          · rename_i st2 e heq
            have h := hrec node.subtree (goJoin pfx node.name) st hjoin
            rw [heq] at h
            exact h
          · rename_i st2 heq
            have h := hrec node.subtree (goJoin pfx node.name) st hjoin
            rw [heq] at h
            exact steps_trans h (ih pfx found st2 hp)
        · exact ih pfx found st hp
      | true =>
        split
        · exact ih pfx found st hp
        split
        · exact ih pfx found st hp
        simp only [eq_self_iff_true, if_true]
        have hstep := printMatch_steps marshal st pfx node hp
        split
        · split
          · rename_i st2 e heq
            have h := hrec node.subtree (goJoin pfx node.name)
              (printMatch marshal { st with recs := st.recs ++ [(pfx, node)] } pfx node) hjoin
            rw [heq] at h
            exact steps_trans hstep h
          · rename_i st2 heq
            have h := hrec node.subtree (goJoin pfx node.name)
              (printMatch marshal { st with recs := st.recs ++ [(pfx, node)] } pfx node) hjoin
            rw [heq] at h
            exact steps_trans (steps_trans hstep h) (ih pfx true st2 hp)
        · exact steps_trans hstep (ih pfx true _ hp)

theorem findInTree_steps (repo : TreeID → Option Tree)
    (marshal : Str → Node → Option Str) (fuel : Nat) :
    ∀ (pat : FindPattern) (tid : TreeID) (pfx : Str) (st : FindState),
      pfx.head? = some '/' →
      Steps st (findInTree repo marshal fuel pat tid pfx st).1 := by
  induction fuel with
  | zero =>
    intro pat tid pfx st hp
    exact steps_refl st
  | succ fuel ih =>
    intro pat tid pfx st hp
    simp only [findInTree]
    split
    · exact steps_refl st
    have hload : Steps st { st with loads := st.loads ++ [tid] } := by
      refine ⟨List.prefix_refl _, List.prefix_append _ _, List.prefix_refl _,
        rfl, rfl, rfl, fun _ => ⟨rfl, rfl⟩, fun _ h => h, fun t ht => Or.inl ht⟩
    cases hload2 : repo tid with
    | none =>
      simp only [hload2]
      exact hload
    | some tree =>
      simp only [hload2]
      have hn := findNodes_steps marshal (findInTree repo marshal fuel pat) pat
        (fun tid2 pfx2 st2 hp2 => ih pat tid2 pfx2 st2 hp2) tree pfx false
        { st with loads := st.loads ++ [tid] } hp
      split
      · rename_i st1 e heq
        rw [heq] at hn
        exact steps_trans hload hn
      · rename_i found st1 heq
        rw [heq] at hn
        split
        · refine steps_trans (steps_trans hload hn) ?_
          exact ⟨List.prefix_refl _, List.prefix_refl _, List.prefix_refl _,
            rfl, rfl, rfl, fun _ => ⟨rfl, rfl⟩, fun _ h => h, fun t ht => Or.inl ht⟩
        · exact steps_trans hload hn

theorem findInSnapshot_steps (repo : TreeID → Option Tree)
    (marshal : Str → Node → Option Str) (fuel : Nat) (pat : FindPattern)
    (sn : Snapshot) (st : FindState) :
    st.toks <+: (findInSnapshot repo marshal fuel pat sn st).1.toks ∧
    st.loads <+: (findInSnapshot repo marshal fuel pat sn st).1.loads ∧
    st.recs <+: (findInSnapshot repo marshal fuel pat sn st).1.recs ∧
    (findInSnapshot repo marshal fuel pat sn st).1.out.json = st.out.json ∧
    ((findInSnapshot repo marshal fuel pat sn st).1.recs = st.recs →
      (findInSnapshot repo marshal fuel pat sn st).1.toks = st.toks ∧
      (findInSnapshot repo marshal fuel pat sn st).1.out = { st.out with newsn := some sn }) ∧
    (InvJ st → InvJ (findInSnapshot repo marshal fuel pat sn st).1) ∧
    (∀ t ∈ (findInSnapshot repo marshal fuel pat sn st).1.toks, t ∈ st.toks ∨ pathTokOk t) := by
  have h := findInTree_steps repo marshal fuel pat sn.tree (['/'])
    { st with out := { st.out with newsn := some sn } } rfl
  obtain ⟨a, b, c, d, e, f, g, i, j⟩ := h
  have hinvEq : InvJ { st with out := { st.out with newsn := some sn } } = InvJ st := rfl
  refine ⟨a, b, c, d, ?_, ?_, j⟩
  · intro hrec
    obtain ⟨h1, h2⟩ := g hrec
    exact ⟨h1, h2⟩
  · intro hinv
    exact i rfl (hinvEq ▸ hinv)

theorem runFindLoop_steps (repo : TreeID → Option Tree)
    (marshal : Str → Node → Option Str) (fuel : Nat) (pat : FindPattern)
    (snaps : List Snapshot) :
    ∀ st : FindState,
      (runFindLoop repo marshal fuel pat snaps st).1.out.json = st.out.json ∧
      (InvJ st → InvJ (runFindLoop repo marshal fuel pat snaps st).1) ∧
      (∀ t ∈ (runFindLoop repo marshal fuel pat snaps st).1.toks,
        t ∈ st.toks ∨ pathTokOk t) := by
  induction snaps with
  | nil =>
    intro st
    exact ⟨rfl, fun h => h, fun t ht => Or.inl ht⟩
  | cons sn rest ih =>
    intro st
    simp only [runFindLoop]
    obtain ⟨a, b, c, d, e, f, g⟩ := findInSnapshot_steps repo marshal fuel pat sn st
    cases hr : findInSnapshot repo marshal fuel pat sn st with
    | mk st1 err =>
      rw [hr] at d f g
      cases err with
      | some e2 =>
        simp only [hr]
        exact ⟨d, f, g⟩
      | none =>
        simp only [hr]
        obtain ⟨d2, f2, g2⟩ := ih st1
        refine ⟨d2.trans d, fun hinv => f2 (f hinv), ?_⟩
        intro t ht
        rcases g2 t ht with h1 | h1
        · exact g t h1
        · exact Or.inr h1

theorem initFindState_inv (opts : FindOpts) : InvJ (initFindState opts) := by
  intro hjs
  refine ⟨?_, fun _ => rfl, ?_⟩ <;> simp [initFindState, hasRec]

theorem runFindCore_inv (repo : TreeID → Option Tree)
    (marshal : Str → Node → Option Str) (parseT : Str → Option Int)
    (opts : FindOpts) (args : List Str) (snaps : List Snapshot) (fuel : Nat) :
    (runFindCore repo marshal parseT opts args snaps fuel).1.out.json = opts.json ∧
    InvJ (runFindCore repo marshal parseT opts args snaps fuel).1 ∧
    (∀ t ∈ (runFindCore repo marshal parseT opts args snaps fuel).1.toks, pathTokOk t) := by
  unfold runFindCore
  split
  · exact ⟨rfl, initFindState_inv opts, by simp [initFindState]⟩
  split
  · exact ⟨rfl, initFindState_inv opts, by simp [initFindState]⟩
  · rename_i o ho
    split
    · exact ⟨rfl, initFindState_inv opts, by simp [initFindState]⟩
    · rename_i nw hnw
      obtain ⟨a, b, c⟩ := runFindLoop_steps repo marshal fuel _ snaps (initFindState opts)
      refine ⟨a.trans rfl, b (initFindState_inv opts), ?_⟩
      intro t ht
      rcases c t ht with h1 | h1
      · simp [initFindState] at h1
      · exact h1

theorem finishToks_pathOk (s : StatefulOutput) : ∀ t ∈ finishToks s, pathTokOk t := by
  unfold finishToks
  split
  · intro t ht
    rcases List.mem_append.1 ht with h1 | h1
    · revert h1
      cases s.oldsn <;> intro h1 <;> simp_all [pathTokOk]
    · revert h1
      split <;> intro h1 <;> simp_all [pathTokOk]
  · simp

theorem runFind_pathOk (repo : TreeID → Option Tree)
    (marshal : Str → Node → Option Str) (parseT : Str → Option Int)
    (opts : FindOpts) (args : List Str) (snaps : List Snapshot) (fuel : Nat) :
    ∀ t ∈ (runFind repo marshal parseT opts args snaps fuel).1.toks, pathTokOk t := by
  obtain ⟨_, _, hc⟩ := runFindCore_inv repo marshal parseT opts args snaps fuel
  unfold runFind
  cases hr : runFindCore repo marshal parseT opts args snaps fuel with
  | mk st err =>
    rw [hr] at hc
    cases err with
    | some e =>
      simp only
      exact hc
    | none =>
      simp only
      intro t ht
      rcases List.mem_append.1 ht with h1 | h1
      · exact hc t h1
      · exact finishToks_pathOk st.out t h1

theorem ne_nil_of_grow {l l2 : List TreeID} (h : l <+: l2) (hne : l ≠ []) :
    l2 ≠ [] := by
  obtain ⟨t, rfl⟩ := h
  intro h2
  rw [List.append_eq_nil] at h2
  exact hne h2.1

theorem bracket_match (n : Str) :
    filepathMatch (("[").toList) n =
      (if n = [] then Except.ok false else Except.error ()) := by
  cases n with
  | nil => rfl
  | cons c s => rfl

theorem findNodes_bracket (marshal : Str → Node → Option Str)
    (recur : TreeID → Str → FindState → FindState × Option FindErr)
    (pat : FindPattern) (hpat : pat.pattern = ("[").toList)
    (hrec : ∀ tid pfx2 st2,
      (recur tid pfx2 st2).1.recs = st2.recs ∧
      (recur tid pfx2 st2).1.toks = st2.toks ∧
      (recur tid pfx2 st2).1.out = st2.out ∧
      st2.loads <+: (recur tid pfx2 st2).1.loads ∧
      ((recur tid pfx2 st2).2 = some .badPattern → (recur tid pfx2 st2).1.loads ≠ []))
    (nodes : List Node) :
    ∀ (pfx : Str) (found : Bool) (st : FindState),
      (findNodes marshal recur pat pfx nodes found st).2.1.recs = st.recs ∧
      (findNodes marshal recur pat pfx nodes found st).2.1.toks = st.toks ∧
      (findNodes marshal recur pat pfx nodes found st).2.1.out = st.out ∧
      st.loads <+: (findNodes marshal recur pat pfx nodes found st).2.1.loads ∧
      ((findNodes marshal recur pat pfx nodes found st).2.2 = some .badPattern →
        st.loads ≠ [] →
        (findNodes marshal recur pat pfx nodes found st).2.1.loads ≠ []) := by
  induction nodes with
  | nil =>
    intro pfx found st
    exact ⟨rfl, rfl, rfl, List.prefix_refl _, fun h => Option.noConfusion h⟩
  | cons node rest ih =>
    intro pfx found st
    simp only [findNodes, hpat, bracket_match]
    by_cases hname :
        (if pat.ignoreCase = true then List.map Char.toLower node.name else node.name) = []
    · rw [if_pos hname]
      simp only [Bool.false_eq_true, false_and, if_false]
      split
      · split
        · rename_i st2 e heq
          obtain ⟨r1, r2, r3, r4, r5⟩ := hrec node.subtree (goJoin pfx node.name) st
          rw [heq] at r1 r2 r3 r4 r5
          exact ⟨r1, r2, r3, r4, fun h _ => r5 h⟩
        · rename_i st2 heq
          obtain ⟨r1, r2, r3, r4, r5⟩ := hrec node.subtree (goJoin pfx node.name) st
          rw [heq] at r1 r2 r3 r4 r5
          obtain ⟨i1, i2, i3, i4, i5⟩ := ih pfx found st2
          refine ⟨i1.trans r1, i2.trans r2, i3.trans r3, r4.trans i4, ?_⟩
          intro h hne
          exact i5 h (ne_nil_of_grow r4 hne)
      · exact ih pfx found st
    · rw [if_neg hname]
      exact ⟨rfl, rfl, rfl, List.prefix_refl _, fun _ hne => hne⟩

theorem findInTree_bracket (repo : TreeID → Option Tree)
    (marshal : Str → Node → Option Str) (fuel : Nat) (pat : FindPattern)
    (hpat : pat.pattern = ("[").toList) :
    ∀ (tid : TreeID) (pfx : Str) (st : FindState),
      (findInTree repo marshal fuel pat tid pfx st).1.recs = st.recs ∧
      (findInTree repo marshal fuel pat tid pfx st).1.toks = st.toks ∧
      (findInTree repo marshal fuel pat tid pfx st).1.out = st.out ∧
      st.loads <+: (findInTree repo marshal fuel pat tid pfx st).1.loads ∧
      ((findInTree repo marshal fuel pat tid pfx st).2 = some .badPattern →
        (findInTree repo marshal fuel pat tid pfx st).1.loads ≠ []) := by
  induction fuel with
  | zero =>
    intro tid pfx st
    exact ⟨rfl, rfl, rfl, List.prefix_refl _,
      fun h => FindErr.noConfusion (Option.some.inj h)⟩
  | succ fuel ih =>
    intro tid pfx st
    simp only [findInTree]
    split
    · exact ⟨rfl, rfl, rfl, List.prefix_refl _, fun h => Option.noConfusion h⟩
    cases hload2 : repo tid with
    | none =>
      exact ⟨rfl, rfl, rfl, List.prefix_append _ _,
        fun h => FindErr.noConfusion (Option.some.inj h)⟩
    | some tree =>
      dsimp only
      have hn := findNodes_bracket marshal (findInTree repo marshal fuel pat) pat hpat
        (fun tid2 pfx2 st2 => ih tid2 pfx2 st2) tree pfx false
        { st with loads := st.loads ++ [tid] }
      obtain ⟨n1, n2, n3, n4, n5⟩ := hn
      have hape : st.loads ++ [tid] ≠ ([] : List TreeID) := by simp
      split
      · rename_i st1 e heq
        rw [heq] at n1 n2 n3 n4 n5
        exact ⟨n1, n2, n3, (List.prefix_append _ _).trans n4,
          fun h => n5 h hape⟩
      · rename_i found st1 heq
        rw [heq] at n1 n2 n3 n4 n5
        split
        · exact ⟨n1, n2, n3, (List.prefix_append _ _).trans n4,
            fun h => Option.noConfusion h⟩
        · exact ⟨n1, n2, n3, (List.prefix_append _ _).trans n4,
            fun h => Option.noConfusion h⟩

theorem runFindLoop_bracket (repo : TreeID → Option Tree)
    (marshal : Str → Node → Option Str) (fuel : Nat) (pat : FindPattern)
    (hpat : pat.pattern = ("[").toList) (snaps : List Snapshot) :
    ∀ st : FindState,
      (runFindLoop repo marshal fuel pat snaps st).1.recs = st.recs ∧
      (runFindLoop repo marshal fuel pat snaps st).1.toks = st.toks ∧
      st.loads <+: (runFindLoop repo marshal fuel pat snaps st).1.loads ∧
      ((runFindLoop repo marshal fuel pat snaps st).2 = some .badPattern →
        (runFindLoop repo marshal fuel pat snaps st).1.loads ≠ []) := by
  induction snaps with
  | nil =>
    intro st
    exact ⟨rfl, rfl, List.prefix_refl _, fun h => Option.noConfusion h⟩
  | cons sn rest ih =>
    intro st
    simp only [runFindLoop]
    obtain ⟨t1, t2, t3, t4, t5⟩ := findInTree_bracket repo marshal fuel pat hpat
      sn.tree (['/']) { st with out := { st.out with newsn := some sn } }
    cases hr : findInSnapshot repo marshal fuel pat sn st with
    | mk st1 err =>
      have hr2 : findInTree repo marshal fuel pat sn.tree (['/'])
          { st with out := { st.out with newsn := some sn } } = (st1, err) := hr
      rw [hr2] at t1 t2 t3 t4 t5
      cases err with
      | some e2 =>
        simp only [hr]
        exact ⟨t1, t2, t4, t5⟩
      | none =>
        simp only [hr]
        obtain ⟨i1, i2, i3, i4⟩ := ih st1
        exact ⟨i1.trans t1, i2.trans t2, t4.trans i3, i4⟩

theorem claim_C1_negcache_admits_tree_with_descendant_match :
    (runFind subRepo idMarshal noParse plainOpts [("*.txt").toList] [snapA] 9).1.notfound
      = [1] ∧
    (runFind subRepo idMarshal noParse plainOpts [("*.txt").toList] [snapA] 9).1.recs
      = [((("/sub").toList), bTxt)] := by
  decide

/-- C2: consequence of the C1 bug, violating output equivalence. Two
snapshots share root tree 1 (match `/sub/b.txt` in subtree 2): after the
first search caches tree 1, the second search skips it entirely, so only
one match record is ever accepted (the second snapshot reports nothing),
even though the claim requires the match to be reported for both. (Each
shared tree was indeed loaded only once here: `loads = [1, 2]`.) -/
theorem claim_C2_second_snapshot_suppressed :
    (runFind subRepo idMarshal noParse plainOpts [("*.txt").toList] [snapA, snapB] 9).1.recs
      = [((("/sub").toList), bTxt)] ∧
    (runFind subRepo idMarshal noParse plainOpts [("*.txt").toList] [snapA, snapB] 9).1.loads
      = [1, 2] := by
  decide

/-- C3 counterexample: the invalid pattern `[` is *not* detected before
traversal. With one snapshot, the root tree is loaded (`loads = [1]`)
before the error surfaces from the first `filepath.Match` call; with zero
snapshots, no match is ever attempted, so the error goes entirely
unreported and structured mode still prints `[]`. -/
theorem claim_C3_cex_error_detected_only_during_traversal :
    ((runFindCore subRepo idMarshal noParse jsonOpts [("[").toList] [snapA] 9).2
        = some .badPattern ∧
     (runFindCore subRepo idMarshal noParse jsonOpts [("[").toList] [snapA] 9).1.loads
        = [1]) ∧
    ((runFind subRepo idMarshal noParse jsonOpts [("[").toList] [] 9).2 = none ∧
     (runFind subRepo idMarshal noParse jsonOpts [("[").toList] [] 9).1.toks
        = [.emptyArray]) := by
  decide

/-- C5 counterexample: a directory entry `build` whose name matches the
pattern `build` but whose modification time (5) lies before the oldest
bound (10) hits `continue`, which also skips the directory recursion:
subtree 2 is never loaded (`loads = [1]`), its matching child is never
reported, and no error occurs. -/
theorem claim_C5_cex_window_rejected_dir_not_recursed :
    (runFindCore buildRepo idMarshal parse10 oldestOpts [("build").toList] [snapA] 9).1.loads
      = [1] ∧
    (runFindCore buildRepo idMarshal parse10 oldestOpts [("build").toList] [snapA] 9).1.recs
      = [] ∧
    (runFindCore buildRepo idMarshal parse10 oldestOpts [("build").toList] [snapA] 9).2
      = none := by
  decide

/-- C6: matching is case-insensitive iff the flag is set. With the flag,
`runFind` lowercases the pattern once at configuration time
(`basePattern`), each entry name is lowercased before matching, and
pattern `*.TXT` matches entry `notes.txt`; without the flag the same
search matches nothing. -/
theorem claim_C6_case_insensitivity_iff_flag :
    (∀ p : Str,
      (basePattern p true).pattern = p.map Char.toLower ∧
      (basePattern p true).ignoreCase = true ∧
      (basePattern p false).pattern = p ∧
      (basePattern p false).ignoreCase = false) ∧
    (runFind notesRepo idMarshal noParse ciOpts [("*.TXT").toList] [snapA] 9).1.recs
      = [((['/']), mkFile (("notes.txt").toList) 0)] ∧
    (runFind notesRepo idMarshal noParse plainOpts [("*.TXT").toList] [snapA] 9).1.recs
      = [] := by
  refine ⟨fun p => ⟨rfl, rfl, rfl, rfl⟩, ?_, ?_⟩ <;> decide


/-- C7: in structured mode, if no record was rendered before `Finish()`,
it emits exactly the empty array `[]` (a complete document); if records
were rendered, it closes the last open group object with its hit count
and snapshot id and then the outer array. -/
theorem claim_C7_finish_empty_or_closed (repo : TreeID → Option Tree)
    (marshal : Str → Node → Option Str) (parseT : Str → Option Int)
    (opts : FindOpts) (args : List Str) (snaps : List Snapshot) (fuel : Nat)
    (hjson : opts.json = true) :
    (hasRec (runFindCore repo marshal parseT opts args snaps fuel).1.toks = false →
      finishToks (runFindCore repo marshal parseT opts args snaps fuel).1.out
        = [Tok.emptyArray]) ∧
    (hasRec (runFindCore repo marshal parseT opts args snaps fuel).1.toks = true →
      ∃ sid, finishToks (runFindCore repo marshal parseT opts args snaps fuel).1.out
        = [Tok.closeGroupFinal
             (runFindCore repo marshal parseT opts args snaps fuel).1.out.hits sid,
           Tok.closeBracket]) := by
  obtain ⟨hjs, hinv, _⟩ := runFindCore_inv repo marshal parseT opts args snaps fuel
  rw [hjson] at hjs
  obtain ⟨h1, h2, h3⟩ := hinv hjs
  constructor
  · intro hno
    have hiu : (runFindCore repo marshal parseT opts args snaps fuel).1.out.inuse = false := by
      cases hiu2 : (runFindCore repo marshal parseT opts args snaps fuel).1.out.inuse
      · rfl
      · rw [h1.mp hiu2] at hno
        cases hno
    have hold := h2 hiu
    simp [finishToks, hjs, hold, hiu]
  · intro hyes
    have hiu := h1.mpr hyes
    have hsome := h3 hiu
    obtain ⟨old, hold⟩ := Option.isSome_iff_exists.mp hsome
    exact ⟨old.sid, by simp [finishToks, hjs, hold, hiu]⟩

theorem claim_C7_witness :
    jsonOpts.json = true ∧
    ((hasRec (runFindCore subRepo idMarshal noParse jsonOpts
        [("*.doc").toList] [snapA] 9).1.toks = false →
      finishToks (runFindCore subRepo idMarshal noParse jsonOpts
        [("*.doc").toList] [snapA] 9).1.out = [Tok.emptyArray]) ∧
     (hasRec (runFindCore subRepo idMarshal noParse jsonOpts
        [("*.doc").toList] [snapA] 9).1.toks = true →
      ∃ sid, finishToks (runFindCore subRepo idMarshal noParse jsonOpts
        [("*.doc").toList] [snapA] 9).1.out
        = [Tok.closeGroupFinal (runFindCore subRepo idMarshal noParse jsonOpts
             [("*.doc").toList] [snapA] 9).1.out.hits sid,
           Tok.closeBracket])) :=
  ⟨rfl, claim_C7_finish_empty_or_closed subRepo idMarshal noParse jsonOpts
    [("*.doc").toList] [snapA] 9 rfl⟩

/-- C8: a record whose structured serialization fails is reported as a
warning and skipped: `PrintJSON` appends only the warning to the output,
leaves the sink state (including the hit counter) untouched, and the
search continues — in the concrete run, `/a.txt` fails to marshal, a
warning is emitted, nothing of it reaches the result stream, and the
search still accepts and renders `/c.txt` with hit count 1 and no error. -/
theorem claim_C8_serialization_failure_skips_one_record
    (marshal : Str → Node → Option Str) (st : FindState) (pfx : Str) (node : Node)
    (hfail : marshal (goJoin pfx node.name) node = none) :
    printJSON marshal st pfx node = { st with toks := st.toks ++ [Tok.warn] } ∧
    ((runFindCore twoFileRepo failATxtMarshal noParse jsonOpts
        [("*.txt").toList] [snapA] 9).2 = none ∧
     (runFindCore twoFileRepo failATxtMarshal noParse jsonOpts
        [("*.txt").toList] [snapA] 9).1.recs
       = [((['/']), mkFile (("a.txt").toList) 1), ((['/']), mkFile (("c.txt").toList) 2)] ∧
     (runFindCore twoFileRepo failATxtMarshal noParse jsonOpts
        [("*.txt").toList] [snapA] 9).1.toks
       = [Tok.warn, Tok.openBracket, Tok.openGroup,
          Tok.record (("/c.txt").toList) (("/c.txt").toList)] ∧
     (runFindCore twoFileRepo failATxtMarshal noParse jsonOpts
        [("*.txt").toList] [snapA] 9).1.out.hits = 1) := by
  constructor
  · simp only [printJSON, hfail]
  · decide

theorem claim_C8_witness :
    (fun (_ : Str) (_ : Node) => (none : Option Str))
        (goJoin (['/']) bTxt.name) bTxt = none ∧
    (printJSON (fun _ _ => none) (initFindState jsonOpts) (['/']) bTxt
      = { initFindState jsonOpts with
            toks := (initFindState jsonOpts).toks ++ [Tok.warn] } ∧
     ((runFindCore twoFileRepo failATxtMarshal noParse jsonOpts
        [("*.txt").toList] [snapA] 9).2 = none ∧
      (runFindCore twoFileRepo failATxtMarshal noParse jsonOpts
        [("*.txt").toList] [snapA] 9).1.recs
       = [((['/']), mkFile (("a.txt").toList) 1), ((['/']), mkFile (("c.txt").toList) 2)] ∧
      (runFindCore twoFileRepo failATxtMarshal noParse jsonOpts
        [("*.txt").toList] [snapA] 9).1.toks
       = [Tok.warn, Tok.openBracket, Tok.openGroup,
          Tok.record (("/c.txt").toList) (("/c.txt").toList)] ∧
      (runFindCore twoFileRepo failATxtMarshal noParse jsonOpts
        [("*.txt").toList] [snapA] 9).1.out.hits = 1)) :=
  ⟨rfl, claim_C8_serialization_failure_skips_one_record
    (fun _ _ => none) (initFindState jsonOpts) (['/']) bTxt rfl⟩

/-- C9: a snapshot whose search accepts no entry produces no output at
all: if `findInSnapshot` leaves the accepted-match trace unchanged, the
emitted fragments are unchanged (no header, no group object) and the
sink state advances only in its `newsn` field. -/
theorem claim_C9_matchless_snapshot_silent (repo : TreeID → Option Tree)
    (marshal : Str → Node → Option Str) (fuel : Nat) (pat : FindPattern)
    (sn : Snapshot) (st : FindState)
    (h : (findInSnapshot repo marshal fuel pat sn st).1.recs = st.recs) :
    (findInSnapshot repo marshal fuel pat sn st).1.toks = st.toks ∧
    (findInSnapshot repo marshal fuel pat sn st).1.out
      = { st.out with newsn := some sn } := by
  obtain ⟨a, b, c, d, e, f, g⟩ := findInSnapshot_steps repo marshal fuel pat sn st
  exact e h

theorem claim_C9_witness :
    (findInSnapshot notesRepo idMarshal 9 (basePattern (("*.doc").toList) false)
        snapA (initFindState plainOpts)).1.recs = (initFindState plainOpts).recs ∧
    ((findInSnapshot notesRepo idMarshal 9 (basePattern (("*.doc").toList) false)
        snapA (initFindState plainOpts)).1.toks = (initFindState plainOpts).toks ∧
     (findInSnapshot notesRepo idMarshal 9 (basePattern (("*.doc").toList) false)
        snapA (initFindState plainOpts)).1.out
       = { (initFindState plainOpts).out with newsn := some snapA }) :=
  ⟨by decide, claim_C9_matchless_snapshot_silent notesRepo idMarshal 9
    (basePattern (("*.doc").toList) false) snapA (initFindState plainOpts) (by decide)⟩

/-- C10: every emitted match path is absolute: any rendered record path
(structured mode) or line path (text mode) in a `runFind` output begins
with the path separator, because each snapshot's traversal starts at
prefix `/` and every recursion joins onto it. -/
theorem claim_C10_match_paths_absolute (repo : TreeID → Option Tree)
    (marshal : Str → Node → Option Str) (parseT : Str → Option Int)
    (opts : FindOpts) (args : List Str) (snaps : List Snapshot) (fuel : Nat)
    (p b : Str) (l : Bool)
    (h : Tok.record p b ∈ (runFind repo marshal parseT opts args snaps fuel).1.toks ∨
         Tok.line p l ∈ (runFind repo marshal parseT opts args snaps fuel).1.toks) :
    p.head? = some '/' := by
  rcases h with h | h
  · exact runFind_pathOk repo marshal parseT opts args snaps fuel (Tok.record p b) h
  · exact runFind_pathOk repo marshal parseT opts args snaps fuel (Tok.line p l) h

theorem claim_C10_witness :
    (Tok.record (("/sub/b.txt").toList) (("/sub/b.txt").toList)
        ∈ (runFind subRepo idMarshal noParse jsonOpts
            [("*.txt").toList] [snapA] 9).1.toks ∨
     Tok.line (("/sub/b.txt").toList) false
        ∈ (runFind subRepo idMarshal noParse jsonOpts
            [("*.txt").toList] [snapA] 9).1.toks) ∧
    (("/sub/b.txt").toList).head? = some '/' :=
  ⟨Or.inl (by decide),
   claim_C10_match_paths_absolute subRepo idMarshal noParse jsonOpts
     [("*.txt").toList] [snapA] 9 (("/sub/b.txt").toList) (("/sub/b.txt").toList)
     false (Or.inl (by decide))⟩


/-- C4: the modification-time window is inclusive on both ends and an
unset (zero) bound imposes no constraint: an entry whose name matches the
pattern is accepted iff `oldest = 0 ∨ oldest ≤ modTime` and
`newest = 0 ∨ modTime ≤ newest` (the code rejects exactly when a set
bound is strictly passed: `modTime.Before(oldest)` / `modTime.After(newest)`). -/
theorem claim_C4_time_window_inclusive (nm : Str) (mt old nw : Int) (p : Str)
    (hm : filepathMatch p nm = .ok true) :
    (findInTree
        (oneFileRepo { name := nm, nodeType := fileT, modTime := mt, mode := 0, subtree := 0 })
        idMarshal 1 { oldest := old, newest := nw, pattern := p, ignoreCase := false }
        1 (['/']) (initFindState plainOpts)).1.recs =
      (if (old = 0 ∨ old ≤ mt) ∧ (nw = 0 ∨ mt ≤ nw)
       then [((['/']),
              { name := nm, nodeType := fileT, modTime := mt, mode := 0, subtree := 0 })]
       else []) := by
  by_cases hc1 : old ≠ 0 ∧ mt < old
  · rw [if_neg (by omega)]
    simp +decide [findInTree, findNodes, hm, hc1, initFindState, plainOpts, oneFileRepo]
  by_cases hc2 : nw ≠ 0 ∧ mt > nw
  · rw [if_neg (by omega)]
    simp +decide [findInTree, findNodes, hm, hc1, hc2, initFindState, plainOpts, oneFileRepo]
  · rw [if_pos (by omega)]
    simp +decide [findInTree, findNodes, hm, hc1, hc2, initFindState, plainOpts, oneFileRepo,
      printMatch, printNormal, goJoin]

theorem claim_C4_witness :
    filepathMatch (("a").toList) (("a").toList) = .ok true ∧
    (findInTree
        (oneFileRepo { name := ("a").toList, nodeType := fileT, modTime := 5, mode := 0, subtree := 0 })
        idMarshal 1 { oldest := 5, newest := 5, pattern := ("a").toList, ignoreCase := false }
        1 (['/']) (initFindState plainOpts)).1.recs =
      (if ((5 : Int) = 0 ∨ (5 : Int) ≤ 5) ∧ ((5 : Int) = 0 ∨ (5 : Int) ≤ 5)
       then [((['/']),
              { name := ("a").toList, nodeType := fileT, modTime := 5, mode := 0, subtree := 0 })]
       else []) :=
  ⟨rfl, claim_C4_time_window_inclusive (("a").toList) 5 5 5 (("a").toList) rfl⟩

/-- C5 (amended): a directory entry is recursed into — and a failing
subtree load aborts the traversal immediately — in every case except one:
when the directory's own name matches the pattern *and* its modification
time falls outside an active bound, the `continue` skips the recursion
entirely. Concretely (tree 1 = `{d(dir) -> missing tree 2, e(file)}`,
pattern `*`): the load error for tree 2 is propagated immediately, so the
later entry `e` is never examined. -/
theorem claim_C5_amended_recursion (nm : Str) (mt old nw : Int) (p : Str) (m : Bool)
    (hm : filepathMatch p nm = .ok m) :
    ((findInTree
        (fun t => if t = 1
          then some [{ name := nm, nodeType := dirT, modTime := mt, mode := 0, subtree := 2 }]
          else none)
        idMarshal 2 { oldest := old, newest := nw, pattern := p, ignoreCase := false }
        1 (['/']) (initFindState plainOpts)).1.loads =
       (if m = true ∧ ((old ≠ 0 ∧ mt < old) ∨ (nw ≠ 0 ∧ mt > nw))
        then [1] else [1, 2]) ∧
     (findInTree
        (fun t => if t = 1
          then some [{ name := nm, nodeType := dirT, modTime := mt, mode := 0, subtree := 2 }]
          else none)
        idMarshal 2 { oldest := old, newest := nw, pattern := p, ignoreCase := false }
        1 (['/']) (initFindState plainOpts)).2 =
       (if m = true ∧ ((old ≠ 0 ∧ mt < old) ∨ (nw ≠ 0 ∧ mt > nw))
        then none else some (.loadErr 2))) ∧
    ((runFindCore abortRepo idMarshal noParse plainOpts [("*").toList] [snapA] 9).2
        = some (.loadErr 2) ∧
     (runFindCore abortRepo idMarshal noParse plainOpts [("*").toList] [snapA] 9).1.recs
        = [((['/']), mkDir (("d").toList) 0 2)]) := by
  refine ⟨?_, by decide⟩
  cases m with
  | false =>
    constructor <;>
      simp +decide [findInTree, findNodes, hm, initFindState, plainOpts, printMatch,
        printNormal, goJoin]
  | true =>
    by_cases hc1 : old ≠ 0 ∧ mt < old
    · rw [if_pos ⟨rfl, Or.inl hc1⟩, if_pos ⟨rfl, Or.inl hc1⟩]
      constructor <;>
        simp +decide [findInTree, findNodes, hm, hc1, initFindState, plainOpts]
    by_cases hc2 : nw ≠ 0 ∧ mt > nw
    · rw [if_pos ⟨rfl, Or.inr hc2⟩, if_pos ⟨rfl, Or.inr hc2⟩]
      constructor <;>
        simp +decide [findInTree, findNodes, hm, hc1, hc2, initFindState, plainOpts]
    · rw [if_neg (by tauto), if_neg (by tauto)]
      constructor <;>
        simp +decide [findInTree, findNodes, hm, hc1, hc2, initFindState, plainOpts,
          printMatch, printNormal, goJoin]

theorem claim_C5_witness :
    filepathMatch (("*").toList) (("d").toList) = .ok true ∧
    (((findInTree
        (fun t => if t = 1
          then some [{ name := ("d").toList, nodeType := dirT, modTime := 5, mode := 0, subtree := 2 }]
          else none)
        idMarshal 2 { oldest := 10, newest := 0, pattern := ("*").toList, ignoreCase := false }
        1 (['/']) (initFindState plainOpts)).1.loads =
       (if true = true ∧ (((10 : Int) ≠ 0 ∧ (5 : Int) < 10) ∨ ((0 : Int) ≠ 0 ∧ (5 : Int) > 0))
        then [1] else [1, 2]) ∧
     (findInTree
        (fun t => if t = 1
          then some [{ name := ("d").toList, nodeType := dirT, modTime := 5, mode := 0, subtree := 2 }]
          else none)
        idMarshal 2 { oldest := 10, newest := 0, pattern := ("*").toList, ignoreCase := false }
        1 (['/']) (initFindState plainOpts)).2 =
       (if true = true ∧ (((10 : Int) ≠ 0 ∧ (5 : Int) < 10) ∨ ((0 : Int) ≠ 0 ∧ (5 : Int) > 0))
        then none else some (.loadErr 2))) ∧
    ((runFindCore abortRepo idMarshal noParse plainOpts [("*").toList] [snapA] 9).2
        = some (.loadErr 2) ∧
     (runFindCore abortRepo idMarshal noParse plainOpts [("*").toList] [snapA] 9).1.recs
        = [((['/']), mkDir (("d").toList) 0 2)])) :=
  ⟨rfl, claim_C5_amended_recursion (("d").toList) 5 10 0 (("*").toList) true rfl⟩


/-- C3 (amended): an invalid glob pattern (here `[`, which matches no name
and raises `ErrBadPattern` on every non-empty name) is detected lazily, at
the first attempt to match an entry name during traversal — not before
traversal begins: whenever the run aborts with the pattern error, at
least one tree has already been loaded; no match and no output fragment
is produced before the abort. (If no entry name is ever examined — no
snapshots, or a time-parse failure first — the pattern error goes
unreported.) -/
theorem claim_C3_amended_lazy_detection (repo : TreeID → Option Tree)
    (marshal : Str → Node → Option Str) (parseT : Str → Option Int)
    (opts : FindOpts) (snaps : List Snapshot) (fuel : Nat) :
    (runFindCore repo marshal parseT opts [("[").toList] snaps fuel).1.recs = [] ∧
    (runFindCore repo marshal parseT opts [("[").toList] snaps fuel).1.toks = [] ∧
    ((runFindCore repo marshal parseT opts [("[").toList] snaps fuel).2
        = some .badPattern →
      (runFindCore repo marshal parseT opts [("[").toList] snaps fuel).1.loads ≠ []) := by
  unfold runFindCore
  split
  · exact ⟨rfl, rfl, fun h => FindErr.noConfusion (Option.some.inj h)⟩
  · split
    · exact ⟨rfl, rfl, fun h => FindErr.noConfusion (Option.some.inj h)⟩
    · rename_i o ho
      split
      · exact ⟨rfl, rfl, fun h => FindErr.noConfusion (Option.some.inj h)⟩
      · rename_i nw hnw
        have hpat : (basePattern (("[").toList) opts.caseInsensitive).pattern
            = ("[").toList := by
          cases opts.caseInsensitive
          · rfl
          · decide
        obtain ⟨l1, l2, l3, l4⟩ := runFindLoop_bracket repo marshal fuel
          { basePattern (("[").toList) opts.caseInsensitive with
              oldest := o, newest := nw }
          hpat snaps (initFindState opts)
        exact ⟨l1.trans rfl, l2.trans rfl, l4⟩

theorem claim_C3_witness :
    (runFindCore subRepo idMarshal noParse jsonOpts [("[").toList] [snapA] 9).2
        = some .badPattern ∧
    ((runFindCore subRepo idMarshal noParse jsonOpts [("[").toList] [snapA] 9).1.recs
        = [] ∧
     (runFindCore subRepo idMarshal noParse jsonOpts [("[").toList] [snapA] 9).1.toks
        = [] ∧
     ((runFindCore subRepo idMarshal noParse jsonOpts [("[").toList] [snapA] 9).2
         = some .badPattern →
       (runFindCore subRepo idMarshal noParse jsonOpts [("[").toList] [snapA] 9).1.loads
         ≠ [])) :=
  ⟨by decide,
   claim_C3_amended_lazy_detection subRepo idMarshal noParse jsonOpts [snapA] 9⟩

end ResticFind
